import Mathlib

/-!
Shallow embedding of the streaming-operator core of the Bodo execution engine
(groupby exscan fast path, streaming groupby build tables, columnar build
buffers, storage manager, join operator pipeline results), together with
theorems settling the specification claims against it.

Each definition is translated from the C++ source file named in its doc
comment.  Machine integers are modelled as `Int`/`Nat`; where overflow is
defined behavior in C++ (unsigned wraparound) it is modelled with an explicit
`% 2 ^ w`.
-/

set_option autoImplicit false

namespace Bodo

/-- `bodo_array_type::arr_type_enum` (array kinds), from `_bodo_common.h`
(declared there; the kinds used by the embedded functions appear in
`_groupby_mpi_exscan.cpp` and `_array_build_buffer.h`). -/
inductive ArrType where
  | NUMPY
  | NULLABLE_INT_BOOL
  | CATEGORICAL
  | DICT
  | STRING
  | LIST_STRING
  | ARRAY_ITEM
  | STRUCT
  | MAP
  | TIMESTAMPTZ
  deriving DecidableEq, Repr

/-- `Bodo_CTypes::CTypeEnum` (element dtypes) as used by the groupby kernels. -/
inductive CType where
  | INT8
  | UINT8
  | INT16
  | UINT16
  | INT32
  | UINT32
  | INT64
  | UINT64
  | FLOAT32
  | FLOAT64
  | BOOL
  | DATE
  | DATETIME
  | TIMEDELTA
  | TIME
  | DECIMAL
  | STRINGD
  | BINARY
  | LIST_STRING_D
  deriving DecidableEq, Repr

/-- `Bodo_FTypes` function-type tags used by the embedded groupby code. -/
inductive FType where
  | cumsum
  | cumprod
  | cummin
  | cummax
  | sum
  | prod
  | min
  | max
  | count
  | first
  | last
  | mean
  | var
  | std
  | median
  | boolor_agg
  | min_row_number_filter
  deriving DecidableEq, Repr

/-- Column metadata (and, for key columns, the column's data rows) of an
`array_info`: the fields of `array_info` read by
`determine_groupby_strategy` (`arr_type`, `num_categories`) together with the
row data used to count distinct key-groups. -/
structure ColumnInfo where
  arr_type : ArrType
  num_categories : Int
  data : List Int
  deriving DecidableEq, Repr

/-- Is `f` one of the four cumulative tags tested at
`_groupby_mpi_exscan.cpp:32-33`? -/
def FType.isCumulative (f : FType) : Bool :=
  f == .cumsum || f == .cummin || f == .cumprod || f == .cummax

/-- The function tags examined by the first loop of
`determine_groupby_strategy` (`_groupby_mpi_exscan.cpp:29-38`):
`ftypes[i]` for `0 <= i < func_offsets[ncols - num_keys - index_i]`. -/
def requestedFtypes (columns : List ColumnInfo) (num_keys : Nat)
    (ftypes : List FType) (func_offsets : List Nat)
    (input_has_index : Bool) : List FType :=
  let index_i : Nat := if input_has_index then 1 else 0
  ftypes.take (func_offsets.getD (columns.length - num_keys - index_i) 0)

/-- The operand columns examined by the second loop of
`determine_groupby_strategy` (`_groupby_mpi_exscan.cpp:50-55`):
`columns[i]` for `num_keys <= i < ncols - index_i`. -/
def operandColumns (columns : List ColumnInfo) (num_keys : Nat)
    (input_has_index : Bool) : List ColumnInfo :=
  let index_i : Nat := if input_has_index then 1 else 0
  (columns.take (columns.length - index_i)).drop num_keys

/-- Embedding of `determine_groupby_strategy` (`_groupby_mpi_exscan.cpp:21-75`).
Returns `0` for the classic hash scheme, `1` for single-categorical-key
exscan, `2` for multikey exscan.  `maxGroups` stands for the constant
`max_global_number_groups_exscan`, which is declared in a header that is not
part of this development; modelled from the spec: "a fixed ceiling" whose
exact value is a tunable heuristic, hence kept as an explicit parameter. -/
def determine_groupby_strategy (maxGroups : Int) (columns : List ColumnInfo)
    (num_keys : Nat) (ftypes : List FType) (func_offsets : List Nat)
    (input_has_index : Bool) : Nat :=
  let checked := requestedFtypes columns num_keys ftypes func_offsets input_has_index
  let has_non_cumulative_op := checked.any fun f => !f.isCumulative
  let has_cumulative_op := checked.any fun f => f.isCumulative
  if has_non_cumulative_op then 0
  else if !has_cumulative_op then 0
  else
    let opers := operandColumns columns num_keys input_has_index
    let has_non_arithmetic_type := opers.any fun c =>
      c.arr_type != .NUMPY && c.arr_type != .NULLABLE_INT_BOOL
    if has_non_arithmetic_type then 0
    else if num_keys > 1 then 2
    else
      let key := columns.getD 0 ⟨.NUMPY, 0, []⟩
      if key.arr_type != .CATEGORICAL then 2
      else if key.num_categories > maxGroups then 0
      else 1

/-- The global number of distinct key-groups of a table: the number of
distinct key tuples over the rows of the first `num_keys` columns (what
`compute_categorical_index` computes via `drop_duplicates_keys` plus an
all-reduce; here for the single-process table). -/
def globalDistinctGroups (columns : List ColumnInfo) (num_keys : Nat) : Nat :=
  let keys := columns.take num_keys
  let nrows := (keys.headD ⟨.NUMPY, 0, []⟩).data.length
  ((List.range nrows).map fun i => keys.map fun c => c.data.getD i 0).dedup.length

/-- The eligibility rule exactly as the specification words it (for comparison
with `determine_groupby_strategy`): (1) any non-cumulative function requested
→ ineligible; (2) any operand column not plain-numpy or nullable →
ineligible; (3) global number of distinct key-groups above the ceiling →
ineligible; otherwise eligible. -/
def spec_exscan_eligible (maxGroups : Int) (requested : List FType)
    (opers : List ColumnInfo) (globalNumGroups : Int) : Bool :=
  if requested.any fun f => !f.isCumulative then false
  else if opers.any fun c =>
      c.arr_type != .NUMPY && c.arr_type != .NULLABLE_INT_BOOL then false
  else if globalNumGroups > maxGroups then false
  else true

/-- C1 counterexample: a query with one plain-numpy (non-categorical) key
column holding 3 distinct values, one numpy operand column and a single
`cumsum` request, against ceiling 2.  `determine_groupby_strategy` chooses
the fast path (returns 2) without consulting the global distinct-group count,
while the spec's rule declares the query ineligible (3 groups > ceiling 2):
the function does not decide eligibility exactly by the spec's rule. -/
theorem exscan_strategy_spec_rule_counterexample :
    determine_groupby_strategy 2
        [⟨.NUMPY, 0, [0, 1, 2]⟩, ⟨.NUMPY, 0, [5, 5, 5]⟩] 1
        [.cumsum] [0, 1] false ≠ 0 ∧
      globalDistinctGroups [⟨.NUMPY, 0, [0, 1, 2]⟩, ⟨.NUMPY, 0, [5, 5, 5]⟩] 1 = 3 ∧
      spec_exscan_eligible 2
        (requestedFtypes [⟨.NUMPY, 0, [0, 1, 2]⟩, ⟨.NUMPY, 0, [5, 5, 5]⟩] 1
          [.cumsum] [0, 1] false)
        (operandColumns [⟨.NUMPY, 0, [0, 1, 2]⟩, ⟨.NUMPY, 0, [5, 5, 5]⟩] 1 false)
        3 = false := by
  refine ⟨?_, ?_, ?_⟩ <;> decide

/-- C1 (amended): `determine_groupby_strategy` chooses the exscan fast path
(returns nonzero) **iff** at least one function is requested and every
requested function is cumulative, and every operand column is plain-numpy or
nullable, and — only in the single-key categorical case — the key's category
count does not exceed the fixed ceiling.  For multiple keys or a
non-categorical key the ceiling on global distinct groups is *not* checked
here (it is enforced later by `compute_categorical_index` returning null). -/
theorem exscan_strategy_characterization
    (maxGroups : Int) (columns : List ColumnInfo) (num_keys : Nat)
    (ftypes : List FType) (func_offsets : List Nat) (input_has_index : Bool) :
    determine_groupby_strategy maxGroups columns num_keys ftypes func_offsets
        input_has_index ≠ 0 ↔
      ((requestedFtypes columns num_keys ftypes func_offsets input_has_index ≠ [] ∧
        ∀ f ∈ requestedFtypes columns num_keys ftypes func_offsets input_has_index,
          f.isCumulative = true) ∧
       (∀ c ∈ operandColumns columns num_keys input_has_index,
          c.arr_type = .NUMPY ∨ c.arr_type = .NULLABLE_INT_BOOL) ∧
       (1 < num_keys ∨
        (columns.getD 0 ⟨.NUMPY, 0, []⟩).arr_type ≠ .CATEGORICAL ∨
        (columns.getD 0 ⟨.NUMPY, 0, []⟩).num_categories ≤ maxGroups)) := by
  unfold determine_groupby_strategy
  set checked := requestedFtypes columns num_keys ftypes func_offsets input_has_index
    with hchecked
  set opers := operandColumns columns num_keys input_has_index with hopers
  simp only [ne_eq]
  split_ifs with h1 h2 h3 h4 h5 h6
  · -- some requested function is non-cumulative: strategy 0, right side fails
    refine iff_of_false (fun h => h rfl) fun hrhs => ?_
    simp only [List.any_eq_true, Bool.not_eq_true'] at h1
    obtain ⟨f, hf, hfc⟩ := h1
    exact absurd (hrhs.1.2 f hf) (by simp [hfc])
  · -- no cumulative function at all: `checked` must be empty
    refine iff_of_false (fun h => h rfl) fun hrhs => ?_
    simp only [Bool.not_eq_true', List.any_eq_false] at h2
    rcases hrhs with ⟨⟨hne, hall⟩, -, -⟩
    obtain ⟨f, hf⟩ := List.exists_mem_of_ne_nil _ hne
    have := h2 f hf
    have := hall f hf
    simp_all
  · -- some operand column is non-arithmetic: strategy 0, right side fails
    refine iff_of_false (fun h => h rfl) fun hrhs => ?_
    simp only [List.any_eq_true, Bool.and_eq_true, bne_iff_ne, ne_eq] at h3
    obtain ⟨c, hc, hc1, hc2⟩ := h3
    rcases hrhs.2.1 c hc with h | h
    · exact hc1 h
    · exact hc2 h
  · -- more than one key: strategy 2, right side holds via its first disjunct
    refine iff_of_true (by decide) ⟨⟨?_, ?_⟩, ?_, Or.inl h4⟩
    · simp only [Bool.not_eq_true', List.any_eq_false, Bool.not_eq_false] at h2
      push_neg at h2
      obtain ⟨f, hf, -⟩ := h2
      intro hnil
      rw [hnil] at hf
      exact absurd hf (List.not_mem_nil f)
    · intro f hf
      simp only [List.any_eq_true, Bool.not_eq_true'] at h1
      push_neg at h1
      exact Bool.not_eq_false _ ▸ eq_true_of_ne_false (h1 f hf)
    · intro c hc
      simp only [List.any_eq_true, Bool.and_eq_true, bne_iff_ne, ne_eq] at h3
      push_neg at h3
      by_cases hN : c.arr_type = ArrType.NUMPY
      · exact Or.inl hN
      · exact Or.inr (h3 c hc hN)
  · -- single non-categorical key: strategy 2, second disjunct
    refine iff_of_true (by decide) ⟨⟨?_, ?_⟩, ?_, Or.inr (Or.inl ?_)⟩
    · simp only [Bool.not_eq_true', List.any_eq_false, Bool.not_eq_false] at h2
      push_neg at h2
      obtain ⟨f, hf, -⟩ := h2
      intro hnil
      rw [hnil] at hf
      exact absurd hf (List.not_mem_nil f)
    · intro f hf
      simp only [List.any_eq_true, Bool.not_eq_true'] at h1
      push_neg at h1
      exact Bool.not_eq_false _ ▸ eq_true_of_ne_false (h1 f hf)
    · intro c hc
      simp only [List.any_eq_true, Bool.and_eq_true, bne_iff_ne, ne_eq] at h3
      push_neg at h3
      by_cases hN : c.arr_type = ArrType.NUMPY
      · exact Or.inl hN
      · exact Or.inr (h3 c hc hN)
    · simpa [bne_iff_ne] using h5
  · -- single categorical key above the ceiling: strategy 0, right side fails
    refine iff_of_false (fun h => h rfl) fun hrhs => ?_
    rcases hrhs.2.2 with h | h | h
    · omega
    · exact h (by simpa [bne_iff_ne] using h5)
    · omega
  · -- single categorical key within the ceiling: strategy 1, right side holds
    refine iff_of_true (by decide) ⟨⟨?_, ?_⟩, ?_, Or.inr (Or.inr (by omega))⟩
    · simp only [Bool.not_eq_true', List.any_eq_false, Bool.not_eq_false] at h2
      push_neg at h2
      obtain ⟨f, hf, -⟩ := h2
      intro hnil
      rw [hnil] at hf
      exact absurd hf (List.not_mem_nil f)
    · intro f hf
      simp only [List.any_eq_true, Bool.not_eq_true'] at h1
      push_neg at h1
      exact Bool.not_eq_false _ ▸ eq_true_of_ne_false (h1 f hf)
    · intro c hc
      simp only [List.any_eq_true, Bool.and_eq_true, bne_iff_ne, ne_eq] at h3
      push_neg at h3
      by_cases hN : c.arr_type = ArrType.NUMPY
      · exact Or.inl hN
      · exact Or.inr (h3 c hc hN)

/-! ### Storage manager block ids (`_storage_manager.h`) -/

/-- The mutable state of a `bodo::StorageManager` relevant to block ids:
`uint64_t block_id_counter = 0;` (`_storage_manager.h:155`).  The counter is
an unsigned 64-bit integer, so arithmetic is modulo `2 ^ 64`. -/
structure StorageManagerState where
  block_id_counter : Nat
  deriving DecidableEq, Repr

/-- Freshly constructed manager: the in-class initializer sets
`block_id_counter = 0`. -/
def StorageManager_init : StorageManagerState := ⟨0⟩

/-- `StorageManager::GetNewBlockID` (`_storage_manager.h:91`):
`return this->block_id_counter++;` — returns the current counter and
post-increments it (uint64 wraparound). -/
def GetNewBlockID (st : StorageManagerState) : Nat × StorageManagerState :=
  (st.block_id_counter, ⟨(st.block_id_counter + 1) % 2 ^ 64⟩)

/-- Manager state after `n` calls to `GetNewBlockID` starting from a fresh
manager. -/
def storageStateAfter : Nat → StorageManagerState
  | 0 => StorageManager_init
  | n + 1 => (GetNewBlockID (storageStateAfter n)).2

/-- The block id returned by the `n`-th call (0-based) to `GetNewBlockID` on
a fresh manager. -/
def blockIdAt (n : Nat) : Nat :=
  (GetNewBlockID (storageStateAfter n)).1

theorem storageStateAfter_eq (n : Nat) :
    storageStateAfter n = ⟨n % 2 ^ 64⟩ := by
  induction n with
  | zero => rfl
  | succ n ih =>
      simp only [storageStateAfter, ih, GetNewBlockID, Nat.mod_add_mod]

theorem blockIdAt_eq (n : Nat) : blockIdAt n = n % 2 ^ 64 := by
  rw [blockIdAt, storageStateAfter_eq, GetNewBlockID]

/-- C9 counterexample: the block-id counter is a `uint64_t`, so call number
`2 ^ 64` returns the same id (`0`) as call number `0`: taken literally over
all calls, ids are not strictly increasing and are eventually reused. -/
theorem blockIdAt_wraparound_counterexample :
    blockIdAt (2 ^ 64) = blockIdAt 0 ∧ (0 : Nat) < 2 ^ 64 := by
  constructor
  · rw [blockIdAt_eq, blockIdAt_eq, Nat.mod_self, Nat.zero_mod]
  · positivity

/-- C9 (amended): within one manager instance, as long as fewer than `2 ^ 64`
blocks have been written (the counter has not wrapped), `GetNewBlockID`
returns strictly increasing block ids starting from `0`, so no block id is
reused. -/
theorem blockIdAt_strict_mono (i j : Nat) (hij : i < j) (hj : j < 2 ^ 64) :
    blockIdAt i < blockIdAt j ∧ blockIdAt 0 = 0 := by
  rw [blockIdAt_eq, blockIdAt_eq, Nat.mod_eq_of_lt (by omega),
    Nat.mod_eq_of_lt hj]
  exact ⟨hij, rfl⟩

/-- Witness for the amended C9 theorem at calls 1 and 2. -/
theorem blockIdAt_strict_mono_witness :
    blockIdAt 1 < blockIdAt 2 ∧ blockIdAt 0 = 0 :=
  blockIdAt_strict_mono 1 2 (by decide) (by norm_num)

/-! ### Streaming groupby build table (`_stream_groupby.cpp`)

The single-process (`parallel == false`) build path with a `sum` aggregate:
every input row satisfies `process_on_rank` (`_stream_groupby.cpp:261-263`),
so all rows go to the local build table and the shuffle table stays empty.
`shuffle_this_iter` is declared in a header that is not part of this
development; modelled from the spec: shuffling redistributes rows "across
the process group", so a single process never shuffles (and its shuffle
buffer is empty in any case).  Keys are compared by `TestEqualJoin` with
`is_na_equal = true` (`_stream_groupby.cpp:41-42`, body not part of this
development); modelled from the spec: full key-tuple comparison with nulls
comparing equal, i.e. decidable equality on tuples of `Option Int`. -/

/-- A key tuple: one nullable value per key column, nulls (`none`) comparing
equal. -/
abbrev GKey := List (Option Int)

/-- Build-table state of one buffer of `GroupbyState`: the key column of
`local_table_buffer.data_table`, the running `sum` column, and
`local_next_group`.  Appending a key via `AppendRowKeys` +
`IncrementSizeDataColumns` creates the data slot whose value is then set by
the initialize-and-combine step (`combine_input_table` with
`init_start_row`); for `sum` the initialization is `0`, so the slot is
modelled as created holding `0`. -/
structure GroupbyBuildState (K : Type) where
  keys : List K
  vals : List Int
  next_group : Nat
  deriving DecidableEq, Repr

/-- Group lookup in the build hash table (`build_table.contains` /
`build_table[-i_row - 1]`, `_stream_groupby.cpp:81-83`): the dense group id
of the first (unique) build row whose key equals `k`. -/
def lookup_group {K : Type} [DecidableEq K] (keys : List K) (k : K) : Option Nat :=
  keys.findIdx? fun x => decide (x = k)

/-- `update_groups` (`_stream_groupby.cpp:58-93`): return the group id of an
existing equal key, or append the key as a new group with id `next_group`
(post-incremented). -/
def update_groups {K : Type} [DecidableEq K] (st : GroupbyBuildState K) (k : K) :
    GroupbyBuildState K × Nat :=
  match lookup_group st.keys k with
  | some g => (st, g)
  | none =>
      ({ keys := st.keys ++ [k], vals := st.vals ++ [0],
         next_group := st.next_group + 1 }, st.next_group)

/-- The per-batch pre-aggregation of `get_update_table`
(`_stream_groupby.cpp:103-144`) for a `sum` aggregate: one row per distinct
key of the batch, in first-occurrence order, holding the sum of that key's
values in the batch. -/
def update_table_insert {K : Type} [DecidableEq K] (acc : List (K × Int))
    (k : K) (v : Int) : List (K × Int) :=
  match acc with
  | [] => [(k, v)]
  | (k', v') :: rest =>
      if k' = k then (k', v' + v) :: rest
      else (k', v') :: update_table_insert rest k v

/-- `get_update_table` for a `sum` aggregate (`_stream_groupby.cpp:103-144`). -/
def get_update_table {K : Type} [DecidableEq K] (batch : List (K × Int)) :
    List (K × Int) :=
  batch.foldl (fun acc kv => update_table_insert acc kv.1 kv.2) []

/-- `groupby_build_consume_batch` (`_stream_groupby.cpp:192-335`),
single-process path: (1) pre-aggregate the batch with `get_update_table`;
(2) assign a group id to every update row with `update_groups` (inserting
new groups); (3) `combine_input_table`: add each update value into its
group's running value. -/
def groupby_build_consume_batch {K : Type} [DecidableEq K]
    (st : GroupbyBuildState K) (batch : List (K × Int)) : GroupbyBuildState K :=
  let upd := get_update_table batch
  let step := fun (acc : GroupbyBuildState K × List Nat) (kv : K × Int) =>
    let res := update_groups acc.1 kv.1
    (res.1, acc.2 ++ [res.2])
  let phase1 := upd.foldl step (st, [])
  { phase1.1 with
    vals := (upd.zip phase1.2).foldl
      (fun vs p => vs.set p.2 (vs.getD p.2 0 + p.1.2)) phase1.1.vals }

/-- `groupby_produce_output_batch` (`_stream_groupby.cpp:344-350`): returns
the whole local build table and `is_last = true`. -/
def groupby_produce_output_batch {K : Type} (st : GroupbyBuildState K) :
    List (K × Int) × Bool :=
  (st.keys.zip st.vals, true)

/-- The empty build table created at operator construction. -/
def groupby_init_state (K : Type) : GroupbyBuildState K := ⟨[], [], 0⟩

/-- Consuming a sequence of single-key insertions through `update_groups`
(the group-assignment part of a stream of batches). -/
def process_keys {K : Type} [DecidableEq K] (st : GroupbyBuildState K)
    (ks : List K) : GroupbyBuildState K :=
  ks.foldl (fun s k => (update_groups s k).1) st

theorem lookup_group_append_of_some {K : Type} [DecidableEq K]
    (keys tail : List K) (k : K) (g : Nat) (h : lookup_group keys k = some g) :
    lookup_group (keys ++ tail) k = some g := by
  unfold lookup_group at h ⊢
  rw [List.findIdx?_append, h, Option.or_some]

theorem update_groups_keys_grow {K : Type} [DecidableEq K]
    (st : GroupbyBuildState K) (k : K) :
    ∃ t, ((update_groups st k).1).keys = st.keys ++ t := by
  unfold update_groups
  cases lookup_group st.keys k with
  | none => exact ⟨[k], rfl⟩
  | some g => exact ⟨[], (List.append_nil _).symm⟩

theorem process_keys_keys_grow {K : Type} [DecidableEq K]
    (st : GroupbyBuildState K) (ks : List K) :
    ∃ t, (process_keys st ks).keys = st.keys ++ t := by
  induction ks generalizing st with
  | nil => exact ⟨[], (List.append_nil _).symm⟩
  | cons k ks ih =>
      obtain ⟨t1, h1⟩ := update_groups_keys_grow st k
      obtain ⟨t2, h2⟩ := ih ((update_groups st k).1)
      refine ⟨t1 ++ t2, ?_⟩
      show (process_keys ((update_groups st k).1) ks).keys = _
      rw [h2, h1, List.append_assoc]

/-- C5: grouping the rows `[(A,1),(B,2),(A,3)]` (keys `A = [some 0]`,
`B = [some 1]`) by the key with `sum` on the value, on a single process,
yields exactly the groups `A ↦ 4`, `B ↦ 2`, and the resulting build table is
identical whether the rows arrive as one batch of three rows or as three
batches of one row each. -/
theorem groupby_sum_batch_invariance :
    groupby_build_consume_batch (groupby_init_state GKey)
        [([some 0], 1), ([some 1], 2), ([some 0], 3)] =
      groupby_build_consume_batch (groupby_build_consume_batch
        (groupby_build_consume_batch (groupby_init_state GKey)
          [([some 0], 1)]) [([some 1], 2)]) [([some 0], 3)] ∧
    (groupby_build_consume_batch (groupby_init_state GKey)
        [([some 0], 1), ([some 1], 2), ([some 0], 3)]).keys =
      [[some 0], [some 1]] ∧
    (groupby_build_consume_batch (groupby_init_state GKey)
        [([some 0], 1), ([some 1], 2), ([some 0], 3)]).vals = [4, 2] := by
  refine ⟨?_, ?_, ?_⟩ <;> decide

/-- C7: in the streaming groupby build table, (a) once a key has been
assigned group id `g`, every later lookup of an equal key — after any further
sequence of insertions — still returns `g` (existing ids never change); and
(b) a new key is assigned the id `next_group` (consecutive assignment via
post-increment) and immediately looks up to that id. -/
theorem update_groups_stable_group_ids (st : GroupbyBuildState GKey)
    (hwf : st.next_group = st.keys.length) (ks : List GKey) (k : GKey) (g : Nat) :
    (lookup_group st.keys k = some g →
       lookup_group (process_keys st ks).keys k = some g) ∧
    (lookup_group st.keys k = none →
       (update_groups st k).2 = st.next_group ∧
       lookup_group ((update_groups st k).1).keys k = some st.next_group) := by
  constructor
  · intro h
    obtain ⟨t, ht⟩ := process_keys_keys_grow st ks
    rw [ht]
    exact lookup_group_append_of_some st.keys t k g h
  · intro h
    unfold update_groups
    rw [h]
    refine ⟨rfl, ?_⟩
    show lookup_group (st.keys ++ [k]) k = _
    unfold lookup_group at h ⊢
    rw [List.findIdx?_append, h, Option.none_or]
    simp [hwf]

/-- Witness for C7: a table holding key `[some 5]` with id 0; id 0 survives
two further insertions, and the fresh key `[none]` gets id `next_group = 1`. -/
theorem update_groups_stable_group_ids_witness :
    (lookup_group ([[some 5]] : List GKey) [none] = some 0 →
       lookup_group (process_keys (⟨[[some 5]], [7], 1⟩ : GroupbyBuildState GKey)
         [[none], [some 5]]).keys [none] = some 0) ∧
    (lookup_group ([[some 5]] : List GKey) [none] = none →
       (update_groups (⟨[[some 5]], [7], 1⟩ : GroupbyBuildState GKey) [none]).2 = 1 ∧
       lookup_group ((update_groups (⟨[[some 5]], [7], 1⟩ :
         GroupbyBuildState GKey) [none]).1).keys [none] = some 1) :=
  update_groups_stable_group_ids ⟨[[some 5]], [7], 1⟩ rfl [[none], [some 5]] [none] 0

/-- C10: `groupby_produce_output_batch` always returns the operator's entire
local build table as one batch together with `is_last = true`, regardless of
the state: output is never split across produce calls. -/
theorem groupby_produce_output_whole_table {K : Type} (st : GroupbyBuildState K) :
    groupby_produce_output_batch st = (st.keys.zip st.vals, true) := rfl

/-! ### Dictionary-encoded appends into `ArrayBuildBuffer`
(`_array_build_buffer.h`) -/

/-- A dictionary-encoded column (`bodo_array_type::DICT`): the identity of
the dictionary it references (`child_arrays[0]`, compared by reference) and
its nullable int32 index column (`child_arrays[1]`). -/
structure DictColumn where
  dict_id : Nat
  indices : List (Option Int)
  deriving DecidableEq, Repr

/-- Modelled from the spec: `is_matching_dictionary` is declared outside this
development; per the spec a dictionary matches only when it is "an exact
shared reference to the canonical dictionary", i.e. the two columns reference
the identical dictionary object. -/
def is_matching_dictionary (a b : Nat) : Bool := a == b

/-- `ArrayBuildBuffer::UnsafeAppendBatch` for DICT with an `append_rows`
bitmask (`_array_build_buffer.h:233-249`): error unless the dictionaries
match, otherwise append the selected index-column entries unchanged. -/
def dict_UnsafeAppendBatch_rows (buf in_arr : DictColumn)
    (append_rows : List Bool) : Except String DictColumn :=
  if !is_matching_dictionary buf.dict_id in_arr.dict_id then
    .error "dictionary not unified in UnsafeAppendBatch"
  else
    .ok { buf with indices := buf.indices ++
      ((in_arr.indices.zip append_rows).filterMap fun p =>
        if p.2 then some p.1 else none) }

/-- `ArrayBuildBuffer::UnsafeAppendBatch` for DICT, whole-array form
(`_array_build_buffer.h:639-652`). -/
def dict_UnsafeAppendBatch (buf in_arr : DictColumn) : Except String DictColumn :=
  if !is_matching_dictionary buf.dict_id in_arr.dict_id then
    .error "dictionary not unified in UnsafeAppendBatch"
  else
    .ok { buf with indices := buf.indices ++ in_arr.indices }

/-- `ArrayBuildBuffer::UnsafeAppendRow`, DICT case
(`_array_build_buffer.h:996-1004`). -/
def dict_UnsafeAppendRow (buf in_arr : DictColumn) (row_ind : Nat) :
    Except String DictColumn :=
  if !is_matching_dictionary buf.dict_id in_arr.dict_id then
    .error "dictionary not unified in AppendRow"
  else
    .ok { buf with indices := buf.indices ++ [in_arr.indices.getD row_ind none] }

/-- C4: appending a dictionary-encoded column whose dictionary is not the
identical unified dictionary of the destination raises the designated runtime
error on every append path (batch with row mask, whole batch, single row) and
appends nothing; and when the dictionaries do match, the index entries are
appended verbatim — never re-encoded. -/
theorem dict_append_requires_unified_dictionary (buf in_arr : DictColumn)
    (append_rows : List Bool) (row_ind : Nat)
    (hne : buf.dict_id ≠ in_arr.dict_id) :
    dict_UnsafeAppendBatch_rows buf in_arr append_rows =
        .error "dictionary not unified in UnsafeAppendBatch" ∧
      dict_UnsafeAppendBatch buf in_arr =
        .error "dictionary not unified in UnsafeAppendBatch" ∧
      dict_UnsafeAppendRow buf in_arr row_ind =
        .error "dictionary not unified in AppendRow" ∧
      ∀ buf' in' : DictColumn, buf'.dict_id = in'.dict_id →
        dict_UnsafeAppendBatch buf' in' =
          .ok { buf' with indices := buf'.indices ++ in'.indices } := by
  have hm : is_matching_dictionary buf.dict_id in_arr.dict_id = false := by
    simpa [is_matching_dictionary] using hne
  refine ⟨?_, ?_, ?_, ?_⟩
  · simp [dict_UnsafeAppendBatch_rows, hm]
  · simp [dict_UnsafeAppendBatch, hm]
  · simp [dict_UnsafeAppendRow, hm]
  · intro buf' in' heq
    have hm' : is_matching_dictionary buf'.dict_id in'.dict_id = true := by
      simpa [is_matching_dictionary] using heq
    simp [dict_UnsafeAppendBatch, hm']

/-- Witness for C4 at concrete mismatching (ids 0 vs 1) columns. -/
theorem dict_append_requires_unified_dictionary_witness :
    dict_UnsafeAppendBatch_rows ⟨0, [some 2]⟩ ⟨1, [some 3]⟩ [true] =
        .error "dictionary not unified in UnsafeAppendBatch" ∧
      dict_UnsafeAppendBatch ⟨0, [some 2]⟩ ⟨1, [some 3]⟩ =
        .error "dictionary not unified in UnsafeAppendBatch" ∧
      dict_UnsafeAppendRow ⟨0, [some 2]⟩ ⟨1, [some 3]⟩ 0 =
        .error "dictionary not unified in AppendRow" ∧
      ∀ buf' in' : DictColumn, buf'.dict_id = in'.dict_id →
        dict_UnsafeAppendBatch buf' in' =
          .ok { buf' with indices := buf'.indices ++ in'.indices } :=
  dict_append_requires_unified_dictionary ⟨0, [some 2]⟩ ⟨1, [some 3]⟩ [true] 0
    (by decide)

/-! ### Aggregate initialization identities
(`_groupby_mpi_exscan.cpp:191-206`, `316-344`; `_groupby_common.cpp:26-369`)

The C++ kernels fill typed sentinel values (`std::numeric_limits<T>` members,
`quiet_NaN`, literal constants).  The filled value is modelled symbolically:
integer-representable fills are `num v`; the three float-specific limits have
their own constructors (`quiet_NaN()`, `min()` — the smallest positive
normal — and `max()` — the largest finite value). -/

/-- The sentinel a kernel fills into an output slot. -/
inductive SentinelVal where
  | num (v : Int)
  | quietNaN
  | tinyPositive
  | largestFinite
  | boolVal (b : Bool)
  | noFill
  deriving DecidableEq, Repr

/-- `std::numeric_limits<T>::min()` of the C type backing an integer dtype. -/
def dtype_int_min : CType → Option Int
  | .INT8 => some (-(2 ^ 7))
  | .UINT8 => some 0
  | .INT16 => some (-(2 ^ 15))
  | .UINT16 => some 0
  | .INT32 => some (-(2 ^ 31))
  | .UINT32 => some 0
  | .INT64 => some (-(2 ^ 63))
  | .UINT64 => some 0
  | _ => none

/-- `std::numeric_limits<T>::max()` of the C type backing an integer dtype. -/
def dtype_int_max : CType → Option Int
  | .INT8 => some (2 ^ 7 - 1)
  | .UINT8 => some (2 ^ 8 - 1)
  | .INT16 => some (2 ^ 15 - 1)
  | .UINT16 => some (2 ^ 16 - 1)
  | .INT32 => some (2 ^ 31 - 1)
  | .UINT32 => some (2 ^ 32 - 1)
  | .INT64 => some (2 ^ 63 - 1)
  | .UINT64 => some (2 ^ 64 - 1)
  | _ => none

/-- `std::numeric_limits<T>::min()` as a sentinel, for the ten dtypes
dispatched by `mpi_exscan_computation_Tkey` (`_groupby_mpi_exscan.cpp:
535-575`).  For `float`/`double` this is the smallest positive normal value,
not the most negative one. -/
def numeric_limits_min_val : CType → SentinelVal
  | .FLOAT32 => .tinyPositive
  | .FLOAT64 => .tinyPositive
  | d => .num ((dtype_int_min d).getD (-1))

/-- `std::numeric_limits<T>::max()` as a sentinel, for the dispatched
dtypes. -/
def numeric_limits_max_val : CType → SentinelVal
  | .FLOAT32 => .largestFinite
  | .FLOAT64 => .largestFinite
  | d => .num ((dtype_int_max d).getD (-1))

/-- Is `d` one of the ten dtypes dispatched to an exscan kernel by
`mpi_exscan_computation_Tkey` (`_groupby_mpi_exscan.cpp:535-575`)? -/
def isExscanDispatched (d : CType) : Bool :=
  match d with
  | .INT8 | .UINT8 | .INT16 | .UINT16 | .INT32 | .UINT32 | .INT64 | .UINT64
  | .FLOAT32 | .FLOAT64 => true
  | _ => false

/-- Per-group running-value initialization of the exscan kernels
(`_groupby_mpi_exscan.cpp:191-206` for numpy, identically `329-343` for
nullable): `value_init` starts as the dummy `-1`, then is set per function
tag; `none` when the dtype is not dispatched to any kernel at all. -/
def exscan_value_init (d : CType) (ftype : FType) : Option SentinelVal :=
  if !isExscanDispatched d then none
  else some (
    if ftype = .cumsum then .num 0
    else if ftype = .cumprod then .num 1
    else if ftype = .cummax then numeric_limits_min_val d
    else if ftype = .cummin then numeric_limits_max_val d
    else .num (-1))

/-- The data-buffer fill value chosen by `aggfunc_output_initialize_kernel`'s
`switch (ftype)` (`_groupby_common.cpp:101-369`): `noFill` where the kernel
returns without writing (strings, first/last without a NaN representation),
`none` where it raises the unsupported-combination error. -/
def aggfunc_output_init_value (ftype : FType) (d : CType) : Option SentinelVal :=
  match ftype with
  | .prod =>
      match d with
      | .BOOL => some (.boolVal true)
      | .INT8 | .UINT8 | .INT16 | .UINT16 | .INT32 | .UINT32 | .INT64
      | .UINT64 => some (.num 1)
      | .FLOAT32 | .FLOAT64 => some (.num 1)
      | _ => none
  | .min =>
      match d with
      | .BOOL => some (.boolVal true)
      | .INT8 | .UINT8 | .INT16 | .UINT16 | .INT32 | .UINT32 | .INT64
      | .UINT64 => (dtype_int_max d).map .num
      | .DATE | .DATETIME | .TIMEDELTA | .TIME => some (.num (2 ^ 63 - 1))
      | .FLOAT32 | .FLOAT64 => some .quietNaN
      | .DECIMAL => some (.num (2 ^ 63 - 1))
      | .STRINGD | .BINARY | .LIST_STRING_D => some .noFill
  | .max =>
      match d with
      | .BOOL => some (.boolVal false)
      | .INT8 | .UINT8 | .INT16 | .UINT16 | .INT32 | .UINT32 | .INT64
      | .UINT64 => (dtype_int_min d).map .num
      | .DATE | .DATETIME | .TIMEDELTA | .TIME => some (.num (-(2 ^ 63)))
      | .FLOAT32 | .FLOAT64 => some .quietNaN
      | .DECIMAL => some (.num (-(2 ^ 63)))
      | .STRINGD | .BINARY | .LIST_STRING_D => some .noFill
  | .first | .last =>
      match d with
      | .DATE | .DATETIME | .TIMEDELTA | .TIME => some (.num (-(2 ^ 63)))
      | .FLOAT32 | .FLOAT64 => some .quietNaN
      | _ => some .noFill
  | .min_row_number_filter => some (.boolVal false)
  | _ => some (.num 0)

/-- C3 counterexample: for the floating dtypes the aggregate `min`
initializer is `quiet_NaN()` (so that an all-NaN group yields NaN), not the
dtype's maximum value (`largestFinite`) as the claim states for every
supported numeric dtype. -/
theorem agg_init_float_min_counterexample :
    aggfunc_output_init_value .min .FLOAT64 = some .quietNaN ∧
      numeric_limits_max_val .FLOAT64 = .largestFinite ∧
      (SentinelVal.quietNaN ≠ SentinelVal.largestFinite) := by
  refine ⟨rfl, rfl, by decide⟩

/-- C3 (amended): for every *integer* dtype the cumulative running value is
seeded with the algebraic identity (0 for cumsum, 1 for cumprod, the dtype
minimum for cummax, the dtype maximum for cummin) and aggregate output is
initialized with 1 for prod, the dtype maximum for min and the dtype minimum
for max; for floating dtypes the aggregate min/max initializer is instead
`quiet_NaN()`, and the exscan cummax/cummin seeds are
`numeric_limits<T>::min()/max()` — the smallest positive normal and largest
finite value. -/
theorem agg_identity_initialization (d : CType)
    (hd : d ∈ [CType.INT8, .UINT8, .INT16, .UINT16, .INT32, .UINT32,
      .INT64, .UINT64]) :
    (exscan_value_init d .cumsum = some (.num 0) ∧
     exscan_value_init d .cumprod = some (.num 1) ∧
     exscan_value_init d .cummax = (dtype_int_min d).map SentinelVal.num ∧
     exscan_value_init d .cummin = (dtype_int_max d).map SentinelVal.num ∧
     aggfunc_output_init_value .prod d = some (.num 1) ∧
     aggfunc_output_init_value .min d = (dtype_int_max d).map SentinelVal.num ∧
     aggfunc_output_init_value .max d = (dtype_int_min d).map SentinelVal.num) ∧
    (∀ f : CType, f = .FLOAT32 ∨ f = .FLOAT64 →
      exscan_value_init f .cumsum = some (.num 0) ∧
      exscan_value_init f .cumprod = some (.num 1) ∧
      exscan_value_init f .cummax = some .tinyPositive ∧
      exscan_value_init f .cummin = some .largestFinite ∧
      aggfunc_output_init_value .prod f = some (.num 1) ∧
      aggfunc_output_init_value .min f = some .quietNaN ∧
      aggfunc_output_init_value .max f = some .quietNaN) := by
  constructor
  · fin_cases hd <;> refine ⟨rfl, rfl, rfl, rfl, rfl, rfl, rfl⟩
  · rintro f (rfl | rfl) <;> refine ⟨rfl, rfl, rfl, rfl, rfl, rfl, rfl⟩

/-- Witness for the amended C3 theorem at `INT32`. -/
theorem agg_identity_initialization_witness :
    (exscan_value_init .INT32 .cumsum = some (.num 0) ∧
     exscan_value_init .INT32 .cumprod = some (.num 1) ∧
     exscan_value_init .INT32 .cummax = (dtype_int_min .INT32).map SentinelVal.num ∧
     exscan_value_init .INT32 .cummin = (dtype_int_max .INT32).map SentinelVal.num ∧
     aggfunc_output_init_value .prod .INT32 = some (.num 1) ∧
     aggfunc_output_init_value .min .INT32 = (dtype_int_max .INT32).map SentinelVal.num ∧
     aggfunc_output_init_value .max .INT32 = (dtype_int_min .INT32).map SentinelVal.num) ∧
    (∀ f : CType, f = .FLOAT32 ∨ f = .FLOAT64 →
      exscan_value_init f .cumsum = some (.num 0) ∧
      exscan_value_init f .cumprod = some (.num 1) ∧
      exscan_value_init f .cummax = some .tinyPositive ∧
      exscan_value_init f .cummin = some .largestFinite ∧
      aggfunc_output_init_value .prod f = some (.num 1) ∧
      aggfunc_output_init_value .min f = some .quietNaN ∧
      aggfunc_output_init_value .max f = some .quietNaN) :=
  agg_identity_initialization .INT32 (by decide)

/-! ### Nullable fixed-width batch append (`_array_build_buffer.h:526-560`)

Buffers are modelled at element/bit granularity as total functions from the
position to the stored value; a bit-packed bitmap is a function from the bit
index to the bit. -/

/-- The destination buffer of `ArrayBuildBuffer` for a nullable
(non-boolean) fixed-width column: logical row count `size`, the value buffer
(`buffers[0]`, elementwise) and the bit-packed null bitmap (`buffers[1]`). -/
structure NullableBuffer where
  size : Nat
  data : Nat → Int
  bitmask : Nat → Bool

/-- The input `array_info` of the append: `length` rows, value buffer and
null bitmap. -/
structure NullableInput where
  length : Nat
  data : Nat → Int
  bitmask : Nat → Bool

/-- The value-buffer `memcpy` common to both branches
(`_array_build_buffer.h:541-543`): copy `len` elements of `src` to
element offset `off` of `dest`. -/
def memcpy_elems (dest src : Nat → Int) (off len : Nat) : Nat → Int :=
  fun j => if off ≤ j ∧ j < off + len then src (j - off) else dest j

/-- `ArrayBuildBuffer::_copy_bitmap` (`_array_build_buffer.h:469-472`) called
at byte pointer `dest + byte_off`: `memcpy` of `(len + 7) >> 3` whole bytes,
i.e. at bit granularity the `8 * ((len + 7) / 8)` bits starting at bit
`8 * byte_off` are replaced by the corresponding low bits of `src`. -/
def copy_bitmap (dest src : Nat → Bool) (byte_off len : Nat) : Nat → Bool :=
  fun j =>
    if 8 * byte_off ≤ j ∧ j < 8 * byte_off + 8 * ((len + 7) / 8) then
      src (j - 8 * byte_off)
    else dest j

/-- `SetBitTo(bm, i, b)`. -/
def set_bit_to (bm : Nat → Bool) (i : Nat) (b : Bool) : Nat → Bool :=
  fun j => if j = i then b else bm j

/-- The slow branch's loop (`_array_build_buffer.h:554-559`): for
`i = 0 .. n-1`, `SetBitTo(out, size + i, GetBit(in, i))`. -/
def slow_bitmask_copy (bm src : Nat → Bool) (size : Nat) : Nat → (Nat → Bool)
  | 0 => bm
  | n + 1 => set_bit_to (slow_bitmask_copy bm src size n) (size + n) (src n)

/-- Fast branch of the nullable non-bool `UnsafeAppendBatch`
(`_array_build_buffer.h:548-552`): value memcpy, whole-byte bitmap copy at
byte offset `size >> 3`, length += `in_arr->length`. -/
def append_batch_nullable_fast (buf : NullableBuffer) (inp : NullableInput) :
    NullableBuffer where
  size := buf.size + inp.length
  data := memcpy_elems buf.data inp.data buf.size inp.length
  bitmask := copy_bitmap buf.bitmask inp.bitmask (buf.size / 8) inp.length

/-- Slow branch (`_array_build_buffer.h:553-559`): value memcpy, bit-by-bit
bitmap copy, length incremented per row. -/
def append_batch_nullable_slow (buf : NullableBuffer) (inp : NullableInput) :
    NullableBuffer where
  size := buf.size + inp.length
  data := memcpy_elems buf.data inp.data buf.size inp.length
  bitmask := slow_bitmask_copy buf.bitmask inp.bitmask buf.size inp.length

/-- The nullable non-bool `UnsafeAppendBatch` (`_array_build_buffer.h:
530-560`): dispatches on `(size & 7) == 0`. -/
def append_batch_nullable (buf : NullableBuffer) (inp : NullableInput) :
    NullableBuffer :=
  if buf.size % 8 == 0 then append_batch_nullable_fast buf inp
  else append_batch_nullable_slow buf inp

theorem slow_bitmask_copy_below (bm src : Nat → Bool) (size n j : Nat)
    (hj : j < size) : slow_bitmask_copy bm src size n j = bm j := by
  induction n with
  | zero => rfl
  | succ n ih =>
      simp only [slow_bitmask_copy, set_bit_to]
      rw [if_neg (by omega), ih]

theorem slow_bitmask_copy_in (bm src : Nat → Bool) (size n i : Nat)
    (hi : i < n) : slow_bitmask_copy bm src size n (size + i) = src i := by
  induction n with
  | zero => omega
  | succ n ih =>
      simp only [slow_bitmask_copy, set_bit_to]
      by_cases hin : i = n
      · subst hin
        rw [if_pos rfl]
      · rw [if_neg (by omega), ih (by omega)]

theorem len_le_eight_ceil (len : Nat) : len ≤ 8 * ((len + 7) / 8) := by
  have h := Nat.div_add_mod (len + 7) 8
  have : (len + 7) % 8 < 8 := Nat.mod_lt _ (by norm_num)
  omega

/-- C8: when the destination's current size is a multiple of 8, the
dispatcher takes the whole-byte fast path, and within the logical bounds of
the resulting buffer (all value elements and all `size + length` null bits)
the fast path agrees exactly with the bit-by-bit slow path; the resulting
lengths agree as well. -/
theorem nullable_append_fast_slow_equiv (buf : NullableBuffer)
    (inp : NullableInput) (hal : buf.size % 8 = 0) :
    append_batch_nullable buf inp = append_batch_nullable_fast buf inp ∧
    (append_batch_nullable_fast buf inp).size =
      (append_batch_nullable_slow buf inp).size ∧
    (append_batch_nullable_fast buf inp).data =
      (append_batch_nullable_slow buf inp).data ∧
    ∀ j < buf.size + inp.length,
      (append_batch_nullable_fast buf inp).bitmask j =
        (append_batch_nullable_slow buf inp).bitmask j := by
  refine ⟨?_, rfl, rfl, ?_⟩
  · unfold append_batch_nullable
    rw [if_pos (by simpa using hal)]
  · intro j hj
    simp only [append_batch_nullable_fast, append_batch_nullable_slow,
      copy_bitmap]
    by_cases hlow : j < buf.size
    · rw [if_neg (by omega), slow_bitmask_copy_below _ _ _ _ _ hlow]
    · have hle : buf.size ≤ j := by omega
      have hcap := len_le_eight_ceil inp.length
      rw [if_pos (by constructor <;> omega)]
      have : j = buf.size + (j - buf.size) := by omega
      rw [this, slow_bitmask_copy_in _ _ _ _ _ (by omega)]
      congr 1
      omega

/-- Witness for C8 at a concrete aligned buffer (size 8) and a 3-row input. -/
theorem nullable_append_fast_slow_equiv_witness :
    append_batch_nullable ⟨8, fun _ => 0, fun _ => false⟩
        ⟨3, fun j => (j : Int), fun j => j == 1⟩ =
      append_batch_nullable_fast ⟨8, fun _ => 0, fun _ => false⟩
        ⟨3, fun j => (j : Int), fun j => j == 1⟩ ∧
    (append_batch_nullable_fast ⟨8, fun _ => 0, fun _ => false⟩
        ⟨3, fun j => (j : Int), fun j => j == 1⟩).size =
      (append_batch_nullable_slow ⟨8, fun _ => 0, fun _ => false⟩
        ⟨3, fun j => (j : Int), fun j => j == 1⟩).size ∧
    (append_batch_nullable_fast ⟨8, fun _ => 0, fun _ => false⟩
        ⟨3, fun j => (j : Int), fun j => j == 1⟩).data =
      (append_batch_nullable_slow ⟨8, fun _ => 0, fun _ => false⟩
        ⟨3, fun j => (j : Int), fun j => j == 1⟩).data ∧
    ∀ j < 8 + 3,
      (append_batch_nullable_fast ⟨8, fun _ => 0, fun _ => false⟩
          ⟨3, fun j => (j : Int), fun j => j == 1⟩).bitmask j =
        (append_batch_nullable_slow ⟨8, fun _ => 0, fun _ => false⟩
          ⟨3, fun j => (j : Int), fun j => j == 1⟩).bitmask j :=
  nullable_append_fast_slow_equiv ⟨8, fun _ => 0, fun _ => false⟩
    ⟨3, fun j => (j : Int), fun j => j == 1⟩ rfl

/-! ### Operator pipeline results of `PhysicalJoin`
(`pandas/physical/join.h:319-350`, `358-454`) -/

/-- `OperatorResult` (declared in `pandas/physical/operator.h`): the
three-state result signal of the streaming operator protocol. -/
inductive OperatorResult where
  | NEED_MORE_INPUT
  | HAVE_MORE_OUTPUT
  | FINISHED
  deriving DecidableEq, Repr

/-- The cross-process facts the collective build/probe consume functions act
on: whether every peer process has signalled completion of its local input,
and whether all pending shuffle rows have been exchanged and drained. -/
structure JoinGroupEnv where
  others_locally_last : Bool
  shuffle_drained : Bool

/-- Modelled from the spec: `join_build_consume_batch` and the bool-returning
`nested_loop_join_build_consume_batch` live in `bodo/libs/streaming/_join.cpp`
/ `nested_loop_join.cpp`, which are not part of this development (only their
caller `join.h` is).  Per spec §4.1/§4.3, the returned "global is last" flag
is a collective decision: a process that has run out of local input cannot be
globally last until every peer has signalled completion and no shuffle rows
are pending anywhere. -/
def join_build_consume_batch (env : JoinGroupEnv) (local_is_last : Bool) : Bool :=
  local_is_last && env.others_locally_last && env.shuffle_drained

/-- Modelled from the spec: `join_probe_consume_batch` (same missing
translation unit); the returned flag confirms, collectively, the `is_last`
passed in — it never invents completion. -/
def join_probe_consume_batch (env : JoinGroupEnv) (is_last : Bool) : Bool :=
  is_last && env.others_locally_last && env.shuffle_drained

/-- `PhysicalJoin::ConsumeBatch` (`join.h:319-350`): `local_is_last` is
`prev_op_result == FINISHED`; the nested-loop branch returns `FINISHED` or
`NEED_MORE_INPUT` on the collective flag, the hash branch additionally
signals `HAVE_MORE_OUTPUT` backpressure when the build shuffle buffers are
full. -/
def PhysicalJoin_ConsumeBatch (env : JoinGroupEnv) (is_nested : Bool)
    (build_shuffle_buffers_full : Bool) (prev : OperatorResult) :
    OperatorResult :=
  let local_is_last := prev == .FINISHED
  if is_nested then
    let global_is_last := join_build_consume_batch env local_is_last
    if global_is_last then .FINISHED else .NEED_MORE_INPUT
  else
    let global_is_last := join_build_consume_batch env local_is_last
    if global_is_last then .FINISHED
    else if build_shuffle_buffers_full then .HAVE_MORE_OUTPUT
    else .NEED_MORE_INPUT

/-- `PhysicalJoin::ProcessBatch` (`join.h:358-454`), result component:
`is_last` starts as `prev_op_result == FINISHED`, is passed through the
collective probe consume, and is finally anded with the output buffer being
empty after `PopChunk` (`total_remaining == 0`); `request_input` is cleared
when the probe shuffle buffers are full (hash branch) or more than two full
chunks remain buffered.  `remaining_before`/`remaining_after` are the output
buffer's `total_remaining` before and after the `PopChunk` call. -/
def PhysicalJoin_ProcessBatch (env : JoinGroupEnv) (is_nested : Bool)
    (probe_shuffle_buffers_full : Bool)
    (remaining_before remaining_after active_chunk_capacity : Nat)
    (prev : OperatorResult) : OperatorResult :=
  let is_last0 := prev == .FINISHED
  let is_last1 := join_probe_consume_batch env is_last0
  let request_input0 := true
  let request_input1 :=
    if !is_nested && probe_shuffle_buffers_full then false else request_input0
  let request_input :=
    if remaining_before > 2 * active_chunk_capacity then false
    else request_input1
  let is_last := is_last1 && (remaining_after == 0)
  if is_last then .FINISHED
  else if request_input then .NEED_MORE_INPUT
  else .HAVE_MORE_OUTPUT

/-- C2: `PhysicalJoin` returns `FINISHED` — on either entry point — only
when the upstream result passed in was already `FINISHED` **and** the
deferred cross-process state is drained (every peer done, shuffle rows
exchanged, and for the probe side the pending output buffer empty); local
input exhaustion alone never yields `FINISHED`. -/
theorem join_finished_only_when_group_done (envC envP : JoinGroupEnv)
    (nestedC nestedP bf pbf : Bool) (rb ra cap : Nat)
    (prevC prevP : OperatorResult)
    (hC : PhysicalJoin_ConsumeBatch envC nestedC bf prevC = .FINISHED)
    (hP : PhysicalJoin_ProcessBatch envP nestedP pbf rb ra cap prevP =
      .FINISHED) :
    (prevC = .FINISHED ∧ envC.others_locally_last = true ∧
      envC.shuffle_drained = true) ∧
    (prevP = .FINISHED ∧ envP.others_locally_last = true ∧
      envP.shuffle_drained = true ∧ ra = 0) := by
  constructor
  · unfold PhysicalJoin_ConsumeBatch join_build_consume_batch at hC
    cases prevC <;> cases nestedC <;> cases hE : envC.others_locally_last <;>
      cases hS : envC.shuffle_drained <;> cases bf <;>
      simp_all
  · unfold PhysicalJoin_ProcessBatch join_probe_consume_batch at hP
    cases prevP <;> cases nestedP <;> cases hE : envP.others_locally_last <;>
      cases hS : envP.shuffle_drained <;> cases pbf <;>
      simp_all <;> split_ifs at hP <;> simp_all

/-- Witness for C2: both entry points actually return `FINISHED` when the
upstream is finished and all deferred state is drained. -/
theorem join_finished_only_when_group_done_witness :
    (OperatorResult.FINISHED = OperatorResult.FINISHED ∧
      (⟨true, true⟩ : JoinGroupEnv).others_locally_last = true ∧
      (⟨true, true⟩ : JoinGroupEnv).shuffle_drained = true) ∧
    (OperatorResult.FINISHED = OperatorResult.FINISHED ∧
      (⟨true, true⟩ : JoinGroupEnv).others_locally_last = true ∧
      (⟨true, true⟩ : JoinGroupEnv).shuffle_drained = true ∧ 0 = 0) :=
  join_finished_only_when_group_done ⟨true, true⟩ ⟨true, true⟩
    false false false false 5 0 1 .FINISHED .FINISHED (by decide) (by decide)

/-! ### Nullable-array exscan kernel (`_groupby_mpi_exscan.cpp:316-452`)

`mpi_exscan_computation_nullable_T` is embedded for one operation column
(`n_oper = 1`): each function index `j` reads and writes only its own slice
`cumulative[max_row_idx * (j - start) ..]`, so the per-(group, function)
semantics is captured by the single-function kernel.  The per-group
`cumulative` / `cumulative_mask` vectors are modelled as total functions from
the group index; values are `Int` (one of the integer instantiations of the
template parameter `T`), and the combining operation `op` is kept abstract,
covering all four of `cumsum`/`cumprod`/`cummax`/`cummin`.

The distributed part: `MPI_Exscan` delivers to rank `r` the elementwise
combination of the *final* local vectors of ranks `0 .. r-1`; the receive
buffer is pre-initialized with the per-function identity (`cumulative_recv =
cumulative` before the local pass, `cumulative_mask_recv = 0`), which is what
rank 0 keeps, so the receive vector is modelled as the fold of the lower
ranks' finals starting from that initial vector. -/

/-- One input row of the nullable exscan kernel: the categorical group code
(`cat_column->at<Tkey>(i_row)`, `-1` = missing key), the operand value
`in_col->at<T>(i_row)`, and the validity bit `get_null_bit(i_row)`
(`false` = null). -/
structure NRow where
  idx : Int
  val : Int
  bit : Bool
  deriving DecidableEq, Repr

/-- One output cell: `work_col->at<T>(i_row)` and its validity bit. -/
structure OutCell where
  val : Int
  bit : Bool
  deriving DecidableEq, Repr

/-- Running state of the local pass: `cumulative` and `cumulative_mask`
(the latter only consulted when `!skipdropna`). -/
structure NState where
  cum : Nat → Int
  mask : Nat → Nat

/-- Pointwise update of a per-group vector (`v[pos] = a`). -/
def fn_update {A : Type} (f : Nat → A) (i : Nat) (a : A) : Nat → A :=
  fun j => if j = i then a else f j

/-- One iteration of the local loop of `mpi_exscan_computation_nullable_T`
(`_groupby_mpi_exscan.cpp:358-384`). -/
def nullable_local_step (skipdropna : Bool) (op : Int → Int → Int)
    (st : NState) (row : NRow) : NState × OutCell :=
  if row.idx = -1 then
    (st, ⟨0, false⟩)
  else
    let pos := row.idx.toNat
    let new_val := op row.val (st.cum pos)
    if skipdropna then
      (if row.bit then { st with cum := fn_update st.cum pos new_val } else st,
       ⟨new_val, row.bit⟩)
    else
      if row.bit then
        if st.mask pos = 1 then (st, ⟨new_val, false⟩)
        else ({ st with cum := fn_update st.cum pos new_val }, ⟨new_val, true⟩)
      else
        ({ st with mask := fn_update st.mask pos 1 }, ⟨new_val, false⟩)

/-- The whole local loop: final state and per-row outputs. -/
def nullable_local_pass (skipdropna : Bool) (op : Int → Int → Int) :
    NState → List NRow → NState × List OutCell
  | st, [] => (st, [])
  | st, row :: rest =>
      let first := nullable_local_step skipdropna op st row
      let restres := nullable_local_pass skipdropna op first.1 rest
      (restres.1, first.2 :: restres.2)

/-- Initial per-rank state (`_groupby_mpi_exscan.cpp:328-352`): every
`cumulative` entry holds the function's `value_init`, every mask entry 0. -/
def nullable_init_state (init : Int) : NState :=
  ⟨fun _ => init, fun _ => 0⟩

/-- Final local state of one rank. -/
def rank_final_state (skipdropna : Bool) (op : Int → Int → Int) (init : Int)
    (rows : List NRow) : NState :=
  (nullable_local_pass skipdropna op (nullable_init_state init) rows).1

/-- Local outputs of one rank (before the exscan combination). -/
def rank_local_outs (skipdropna : Bool) (op : Int → Int → Int) (init : Int)
    (rows : List NRow) : List OutCell :=
  (nullable_local_pass skipdropna op (nullable_init_state init) rows).2

/-- `MPI_Exscan` on the `cumulative` vectors
(`_groupby_mpi_exscan.cpp:401-418`): elementwise `op`-combination of the
lower ranks' final vectors, folded onto the pre-initialized receive buffer. -/
def exscan_recv_cum (op : Int → Int → Int) (init : Int)
    (finals : List (Nat → Int)) : Nat → Int :=
  finals.foldl (fun acc v => fun g => op (acc g) (v g)) (fun _ => init)

/-- `MPI_Exscan` with `MPI_MAX` on the saw-a-null masks
(`_groupby_mpi_exscan.cpp:419-423`). -/
def exscan_recv_mask (masks : List (Nat → Nat)) : Nat → Nat :=
  masks.foldl (fun acc m => fun g => Nat.max (acc g) (m g)) (fun _ => 0)

/-- The second (fold-in) loop (`_groupby_mpi_exscan.cpp:424-451`): combine
each local output with the received prefix, and with `!skipdropna` clear the
validity bit of every row whose group's received mask is 1. -/
def nullable_second_pass (skipdropna : Bool) (op : Int → Int → Int)
    (recvCum : Nat → Int) (recvMask : Nat → Nat) :
    List NRow → List OutCell → List OutCell
  | [], _ => []
  | _ :: _, [] => []
  | row :: rows, out :: outs =>
      (if row.idx = -1 then out
       else
         { val := op out.val (recvCum row.idx.toNat),
           bit := if !skipdropna && recvMask row.idx.toNat == 1 then false
                  else out.bit }) ::
      nullable_second_pass skipdropna op recvCum recvMask rows outs

/-- The full distributed nullable exscan output of rank `r`, given every
rank's input rows. -/
def mpi_exscan_nullable_output (skipdropna : Bool) (op : Int → Int → Int)
    (init : Int) (allRanks : List (List NRow)) (r : Nat) : List OutCell :=
  let rows := allRanks.getD r []
  let outs := rank_local_outs skipdropna op init rows
  let finals := (allRanks.take r).map (rank_final_state skipdropna op init)
  nullable_second_pass skipdropna op
    (exscan_recv_cum op init (finals.map NState.cum))
    (exscan_recv_mask (finals.map NState.mask)) rows outs

theorem nullable_step_mask_mono (op : Int → Int → Int) (st : NState)
    (row : NRow) (g : Nat) (h : st.mask g = 1) :
    ((nullable_local_step false op st row).1).mask g = 1 := by
  unfold nullable_local_step
  split_ifs with h1 h2 h3 <;> simp_all [fn_update]
  split_ifs <;> simp_all

theorem nullable_step_null_sets_mask (op : Int → Int → Int) (st : NState)
    (row : NRow) (g : Nat) (hidx : row.idx = (g : Int)) (hbit : row.bit = false) :
    ((nullable_local_step false op st row).1).mask g = 1 := by
  have hne : row.idx ≠ -1 := by rw [hidx]; omega
  unfold nullable_local_step
  simp [hne, hbit, hidx, fn_update]

theorem nullable_pass_mask_mono (op : Int → Int → Int) (st : NState)
    (rows : List NRow) (g : Nat) (h : st.mask g = 1) :
    ((nullable_local_pass false op st rows).1).mask g = 1 := by
  induction rows generalizing st with
  | nil => exact h
  | cons row rest ih =>
      simp only [nullable_local_pass]
      exact ih _ (nullable_step_mask_mono op st row g h)

theorem nullable_pass_final_mask_one (op : Int → Int → Int) (st : NState)
    (rows : List NRow) (g : Nat)
    (h : ∃ p ∈ rows, p.idx = (g : Int) ∧ p.bit = false) :
    ((nullable_local_pass false op st rows).1).mask g = 1 := by
  induction rows generalizing st with
  | nil => simp at h
  | cons r0 rest ih =>
      obtain ⟨p, hp, hpidx, hpbit⟩ := h
      simp only [List.mem_cons] at hp
      simp only [nullable_local_pass]
      rcases hp with rfl | hp
      · exact nullable_pass_mask_mono op _ rest g
          (nullable_step_null_sets_mask op st p g hpidx hpbit)
      · exact ih _ ⟨p, hp, hpidx, hpbit⟩

theorem nullable_step_mask_le_one (op : Int → Int → Int) (st : NState)
    (row : NRow) (g : Nat) (h : st.mask g ≤ 1) :
    ((nullable_local_step false op st row).1).mask g ≤ 1 := by
  unfold nullable_local_step
  split_ifs with h1 h2 h3 <;> simp_all [fn_update]
  all_goals split_ifs <;> simp_all

theorem nullable_pass_mask_le_one (op : Int → Int → Int) (st : NState)
    (rows : List NRow) (g : Nat) (h : st.mask g ≤ 1) :
    ((nullable_local_pass false op st rows).1).mask g ≤ 1 := by
  induction rows generalizing st with
  | nil => exact h
  | cons row rest ih =>
      simp only [nullable_local_pass]
      exact ih _ (nullable_step_mask_le_one op st row g h)

theorem nullable_pass_outs_length (skipdropna : Bool) (op : Int → Int → Int)
    (st : NState) (rows : List NRow) :
    ((nullable_local_pass skipdropna op st rows).2).length = rows.length := by
  induction rows generalizing st with
  | nil => rfl
  | cons row rest ih =>
      simp only [nullable_local_pass, List.length_cons, ih]

theorem nullable_pass_out_null_of_mask (op : Int → Int → Int) (st : NState)
    (rows : List NRow) (g i : Nat) (row : NRow) (out : OutCell)
    (hm : st.mask g = 1) (hrow : rows[i]? = some row)
    (hidx : row.idx = (g : Int))
    (hout : ((nullable_local_pass false op st rows).2)[i]? = some out) :
    out.bit = false := by
  induction rows generalizing st i with
  | nil => simp at hrow
  | cons r0 rest ih =>
      simp only [nullable_local_pass] at hout
      cases i with
      | zero =>
          simp only [List.getElem?_cons_zero, Option.some.injEq] at hrow hout
          subst hrow
          have hne : r0.idx ≠ -1 := by rw [hidx]; omega
          rw [← hout]
          unfold nullable_local_step
          rw [if_neg hne]
          simp only [hidx, Int.toNat_natCast]
          split_ifs <;> simp_all
      | succ n =>
          simp only [List.getElem?_cons_succ] at hrow hout
          exact ih _ n (nullable_step_mask_mono op st r0 g hm) hrow hout

theorem nullable_pass_out_null_of_earlier (op : Int → Int → Int) (st : NState)
    (rows : List NRow) (g i : Nat) (row : NRow) (out : OutCell)
    (hrow : rows[i]? = some row) (hidx : row.idx = (g : Int))
    (hearlier : ∃ i' < i, ∃ p, rows[i']? = some p ∧ p.idx = (g : Int) ∧
      p.bit = false)
    (hout : ((nullable_local_pass false op st rows).2)[i]? = some out) :
    out.bit = false := by
  induction rows generalizing st i with
  | nil => simp at hrow
  | cons r0 rest ih =>
      obtain ⟨i', hi', p, hp, hpidx, hpbit⟩ := hearlier
      cases i with
      | zero => omega
      | succ n =>
          simp only [nullable_local_pass, List.getElem?_cons_succ] at hrow hout
          cases i' with
          | zero =>
              simp only [List.getElem?_cons_zero, Option.some.injEq] at hp
              cases hp
              exact nullable_pass_out_null_of_mask op _ rest g n row out
                (nullable_step_null_sets_mask op st r0 g hpidx hpbit) hrow hidx
                hout
          | succ m =>
              simp only [List.getElem?_cons_succ] at hp
              exact ih _ n hrow ⟨m, by omega, p, hp, hpidx, hpbit⟩ hout

theorem nullable_pass_out_null_of_null_row (skipdropna : Bool)
    (op : Int → Int → Int) (st : NState) (rows : List NRow) (i : Nat)
    (row : NRow) (out : OutCell) (hrow : rows[i]? = some row)
    (hbit : row.bit = false)
    (hout : ((nullable_local_pass skipdropna op st rows).2)[i]? = some out) :
    out.bit = false := by
  induction rows generalizing st i with
  | nil => simp at hrow
  | cons r0 rest ih =>
      simp only [nullable_local_pass] at hout
      cases i with
      | zero =>
          simp only [List.getElem?_cons_zero, Option.some.injEq] at hrow hout
          subst hrow
          rw [← hout]
          unfold nullable_local_step
          split_ifs <;> simp_all
      | succ n =>
          simp only [List.getElem?_cons_succ] at hrow hout
          exact ih _ n hrow hout

theorem exscan_recv_mask_apply (masks : List (Nat → Nat)) (acc : Nat → Nat)
    (g : Nat) :
    (masks.foldl (fun acc m => fun g => Nat.max (acc g) (m g)) acc) g =
      (masks.map fun m => m g).foldl Nat.max (acc g) := by
  induction masks generalizing acc with
  | nil => rfl
  | cons m rest ih => simp only [List.foldl_cons, List.map_cons, ih]

theorem foldl_max_le_of (l : List Nat) (a b : Nat) (ha : a ≤ b)
    (hl : ∀ x ∈ l, x ≤ b) : l.foldl Nat.max a ≤ b := by
  induction l generalizing a with
  | nil => exact ha
  | cons x xs ih =>
      refine ih _ (Nat.max_le.mpr ⟨ha, hl x (List.mem_cons_self x xs)⟩) ?_
      exact fun y hy => hl y (List.mem_cons_of_mem _ hy)

theorem foldl_max_init_le (l : List Nat) (a : Nat) : a ≤ l.foldl Nat.max a := by
  induction l generalizing a with
  | nil => exact Nat.le_refl a
  | cons x xs ih => exact Nat.le_trans (Nat.le_max_left a x) (ih _)

theorem le_foldl_max (l : List Nat) (a x : Nat) (hx : x ∈ l) :
    x ≤ l.foldl Nat.max a := by
  induction l generalizing a with
  | nil => simp at hx
  | cons y ys ih =>
      rcases List.mem_cons.mp hx with rfl | hmem
      · exact Nat.le_trans (Nat.le_max_right a x) (foldl_max_init_le ys _)
      · exact ih _ hmem

theorem exscan_recv_mask_eq_one (masks : List (Nat → Nat)) (g : Nat)
    (hb : ∀ m ∈ masks, m g ≤ 1) (hex : ∃ m ∈ masks, m g = 1) :
    exscan_recv_mask masks g = 1 := by
  have happly : exscan_recv_mask masks g =
      (masks.map fun m => m g).foldl Nat.max 0 := by
    unfold exscan_recv_mask
    simpa using exscan_recv_mask_apply masks (fun _ => 0) g
  rw [happly]
  obtain ⟨m, hm, hmg⟩ := hex
  have h1 : m g ≤ (masks.map fun m => m g).foldl Nat.max 0 :=
    le_foldl_max _ _ _ (List.mem_map_of_mem _ hm)
  have h2 : (masks.map fun m => m g).foldl Nat.max 0 ≤ 1 := by
    refine foldl_max_le_of _ _ _ (Nat.zero_le 1) ?_
    intro x hx
    obtain ⟨m', hm', rfl⟩ := List.mem_map.mp hx
    exact hb m' hm'
  exact Nat.le_antisymm h2 (hmg ▸ h1)

theorem second_pass_length (skipdropna : Bool) (op : Int → Int → Int)
    (recvCum : Nat → Int) (recvMask : Nat → Nat) (rows : List NRow)
    (outs : List OutCell) :
    (nullable_second_pass skipdropna op recvCum recvMask rows outs).length =
      Nat.min rows.length outs.length := by
  induction rows generalizing outs with
  | nil => simp [nullable_second_pass]
  | cons r rs ih =>
      cases outs with
      | nil => simp [nullable_second_pass]
      | cons o os =>
          simp only [nullable_second_pass, List.length_cons, ih]
          simp only [Nat.min_def]
          split_ifs <;> omega

theorem second_pass_map_bit_of_recv_mask (op : Int → Int → Int)
    (recvCum : Nat → Int) (recvMask : Nat → Nat) (rows : List NRow)
    (outs : List OutCell) (i g : Nat) (row : NRow)
    (hrow : rows[i]? = some row) (hidx : row.idx = (g : Int))
    (hm : recvMask g = 1) (hlen : rows.length ≤ outs.length) :
    ((nullable_second_pass false op recvCum recvMask rows outs)[i]?).map
      OutCell.bit = some false := by
  induction rows generalizing outs i with
  | nil => simp at hrow
  | cons r0 rs ih =>
      cases outs with
      | nil => simp at hlen
      | cons o os =>
          simp only [nullable_second_pass]
          cases i with
          | zero =>
              simp only [List.getElem?_cons_zero, Option.some.injEq] at hrow
              subst hrow
              have hne : r0.idx ≠ -1 := by rw [hidx]; omega
              simp only [List.getElem?_cons_zero, Option.map_some]
              rw [if_neg hne]
              simp [hidx, hm]
          | succ n =>
              simp only [List.getElem?_cons_succ] at hrow ⊢
              exact ih os n hrow (by simpa using Nat.le_of_succ_le_succ hlen)

theorem second_pass_map_bit_preserves_null (skipdropna : Bool)
    (op : Int → Int → Int) (recvCum : Nat → Int) (recvMask : Nat → Nat)
    (rows : List NRow) (outs : List OutCell) (i : Nat) (row : NRow)
    (out : OutCell) (hrow : rows[i]? = some row) (hloc : outs[i]? = some out)
    (hbit : out.bit = false) :
    ((nullable_second_pass skipdropna op recvCum recvMask rows outs)[i]?).map
      OutCell.bit = some false := by
  induction rows generalizing outs i with
  | nil => simp at hrow
  | cons r0 rs ih =>
      cases outs with
      | nil => simp at hloc
      | cons o os =>
          simp only [nullable_second_pass]
          cases i with
          | zero =>
              simp only [List.getElem?_cons_zero, Option.some.injEq] at hrow hloc
              subst hrow
              subst hloc
              simp only [List.getElem?_cons_zero, Option.map_some']
              split_ifs <;> simp_all
          | succ n =>
              simp only [List.getElem?_cons_succ] at hrow hloc ⊢
              exact ih os n hrow hloc

/-- C6: in the nullable exscan path, (a) with nulls not skipped
(`skipdropna = false`), every row whose group saw a null at a lower-ranked
process or at an earlier local row comes out with its null bit set (the
saw-a-null mask is exchanged by a separate max-combination exclusive scan,
embodied in `exscan_recv_mask`); (b) with nulls skipped
(`skipdropna = true`), a null input row leaves the local running state
completely unchanged, its local output is null, and it remains null in the
final distributed output. -/
theorem nullable_exscan_null_propagation (op : Int → Int → Int) (init : Int)
    (allRanks : List (List NRow)) (r i : Nat) (row : NRow) (g : Nat)
    (st : NState) :
    ((allRanks.getD r [])[i]? = some row → row.idx = (g : Int) →
      ((∃ r' < r, ∃ p ∈ allRanks.getD r' [], p.idx = (g : Int) ∧
          p.bit = false) ∨
       (∃ i' < i, ∃ p, (allRanks.getD r [])[i']? = some p ∧
          p.idx = (g : Int) ∧ p.bit = false)) →
      ((mpi_exscan_nullable_output false op init allRanks r)[i]?).map
        OutCell.bit = some false) ∧
    (row.bit = false → row.idx = (g : Int) →
      (nullable_local_step true op st row).1 = st ∧
      (nullable_local_step true op st row).2.bit = false) ∧
    ((allRanks.getD r [])[i]? = some row → row.bit = false →
      ((mpi_exscan_nullable_output true op init allRanks r)[i]?).map
        OutCell.bit = some false) := by
  refine ⟨?_, ?_, ?_⟩
  · intro hrow hidx hcause
    simp only [mpi_exscan_nullable_output]
    have hloclen : (rank_local_outs false op init (allRanks.getD r [])).length =
        (allRanks.getD r []).length := nullable_pass_outs_length _ _ _ _
    rcases hcause with ⟨r', hr', p, hp, hpidx, hpbit⟩ | hearlier
    · -- a lower-ranked process saw a null for group g
      have hr'len : r' < allRanks.length := by
        by_contra hcon
        push_neg at hcon
        rw [List.getD_eq_getElem?_getD, List.getElem?_eq_none_iff.mpr hcon] at hp
        simp at hp
      have hsome : allRanks[r']? = some (allRanks.getD r' []) := by
        rw [List.getD_eq_getElem?_getD]
        cases h : allRanks[r']? with
        | none => rw [List.getElem?_eq_none_iff] at h; omega
        | some l => rfl
      have htake : (allRanks.take r)[r']? = some (allRanks.getD r' []) := by
        rw [List.getElem?_take_of_lt hr']
        exact hsome
      have hmemtake : allRanks.getD r' [] ∈ allRanks.take r :=
        List.getElem?_mem htake
      have hmmem : (rank_final_state false op init (allRanks.getD r' [])).mask ∈
          ((allRanks.take r).map (rank_final_state false op init)).map
            NState.mask :=
        List.mem_map_of_mem _ (List.mem_map_of_mem _ hmemtake)
      have hmask_m :
          (rank_final_state false op init (allRanks.getD r' [])).mask g = 1 :=
        nullable_pass_final_mask_one op _ _ g ⟨p, hp, hpidx, hpbit⟩
      have hb : ∀ m ∈ ((allRanks.take r).map
          (rank_final_state false op init)).map NState.mask, m g ≤ 1 := by
        intro m hmem
        obtain ⟨stf, hstf, rfl⟩ := List.mem_map.mp hmem
        obtain ⟨rows'', hrows'', rfl⟩ := List.mem_map.mp hstf
        exact nullable_pass_mask_le_one op _ _ g (by simp [nullable_init_state])
      have hm1 : exscan_recv_mask (((allRanks.take r).map
          (rank_final_state false op init)).map NState.mask) g = 1 :=
        exscan_recv_mask_eq_one _ g hb ⟨_, hmmem, hmask_m⟩
      exact second_pass_map_bit_of_recv_mask op _ _ _ _ i g row hrow hidx hm1
        (by omega)
    · -- an earlier local row of group g was null
      have hi : i < (allRanks.getD r []).length := by
        rcases List.getElem?_eq_some_iff.mp hrow with ⟨h, -⟩
        exact h
      cases hlout : (rank_local_outs false op init (allRanks.getD r []))[i]?
        with
      | none =>
          rw [List.getElem?_eq_none_iff] at hlout
          omega
      | some lout =>
          have hlb : lout.bit = false :=
            nullable_pass_out_null_of_earlier op _ _ g i row lout hrow hidx
              hearlier hlout
          exact second_pass_map_bit_preserves_null false op _ _ _ _ i row lout
            hrow hlout hlb
  · intro hbit hidx
    have hne : row.idx ≠ -1 := by rw [hidx]; omega
    unfold nullable_local_step
    rw [if_neg hne]
    simp [hbit]
  · intro hrow hbit
    simp only [mpi_exscan_nullable_output]
    have hi : i < (allRanks.getD r []).length := by
      rcases List.getElem?_eq_some_iff.mp hrow with ⟨h, -⟩
      exact h
    have hloclen : (rank_local_outs true op init (allRanks.getD r [])).length =
        (allRanks.getD r []).length := nullable_pass_outs_length _ _ _ _
    cases hlout : (rank_local_outs true op init (allRanks.getD r []))[i]? with
    | none =>
        rw [List.getElem?_eq_none_iff] at hlout
        omega
    | some lout =>
        have hlb : lout.bit = false :=
          nullable_pass_out_null_of_null_row true op _ _ i row lout hrow hbit
            hlout
        exact second_pass_map_bit_preserves_null true op _ _ _ _ i row lout
          hrow hlout hlb

/-- Witness for C6: two ranks computing a cumulative sum over group 0.  Rank
0 holds a null row of group 0, so rank 1's valid row comes out null in the
no-skip mode; in skip mode a null row leaves the running state untouched and
stays null. -/
theorem nullable_exscan_null_propagation_witness :
    ((mpi_exscan_nullable_output false (· + ·) 0
        [[⟨0, 5, false⟩], [⟨0, 7, true⟩]] 1)[0]?).map OutCell.bit =
      some false ∧
    ((nullable_local_step true (· + ·) ⟨fun _ => 0, fun _ => 0⟩
        ⟨0, 7, false⟩).1 = (⟨fun _ => 0, fun _ => 0⟩ : NState) ∧
      (nullable_local_step true (· + ·) ⟨fun _ => 0, fun _ => 0⟩
        ⟨0, 7, false⟩).2.bit = false) ∧
    ((mpi_exscan_nullable_output true (· + ·) 0 [[⟨0, 7, false⟩]] 0)[0]?).map
      OutCell.bit = some false := by
  refine ⟨?_, ?_, ?_⟩
  · exact (nullable_exscan_null_propagation (· + ·) 0
      [[⟨0, 5, false⟩], [⟨0, 7, true⟩]] 1 0 ⟨0, 7, true⟩ 0
      ⟨fun _ => 0, fun _ => 0⟩).1 rfl rfl
      (Or.inl ⟨0, Nat.zero_lt_one, ⟨0, 5, false⟩, by decide, rfl, rfl⟩)
  · exact (nullable_exscan_null_propagation (· + ·) 0 [] 0 0 ⟨0, 7, false⟩ 0
      ⟨fun _ => 0, fun _ => 0⟩).2.1 rfl rfl
  · exact (nullable_exscan_null_propagation (· + ·) 0 [[⟨0, 7, false⟩]] 0 0
      ⟨0, 7, false⟩ 0 ⟨fun _ => 0, fun _ => 0⟩).2.2 rfl rfl

end Bodo
